import Mathlib

/-!
Shallow embedding of the money-transfer ledger service exercised by the
`homework-backend` integration-test suite.  The repository contains only the
black-box tests; the service itself (BalanceStore, TransferLedger,
TransferEngine, HistoryQueryService) is reconstructed here from the
behavioral contract in the specification, with the design choices that the
test suite pins down (synchronous rejection on insufficient balance with no
ledger row; creation response in `PENDING`; a 10-minute cancellation window
measured in seconds).  Monetary amounts are fixed-point decimals of scale 2,
represented as integer counts of cents.
-/

namespace Ledger

/-- Modelled from the spec: the `status` column of a `Transfer` row of the
absent service. `PENDING` is the only non-terminal state. -/
inductive TransferStatus where
  | PENDING
  | COMPLETED
  | CANCELLED
  | FAILED
deriving DecidableEq, Repr

/-- Modelled from the spec: a status is terminal when no further transition
is permitted from it. -/
def TransferStatus.isTerminal : TransferStatus → Bool
  | .PENDING => false
  | .COMPLETED => true
  | .CANCELLED => true
  | .FAILED => true

/-- Modelled from the spec: one row of the `user_balances` table of the
absent service; `balance` is in cents, `version` is the optimistic
concurrency counter. -/
structure UserBalance where
  userId : String
  balance : Int
  version : Nat
deriving DecidableEq, Repr

/-- Modelled from the spec: one row of the `transfers` table of the absent
service; times are in seconds, amounts in cents. -/
structure Transfer where
  id : Nat
  fromUserId : String
  toUserId : String
  amount : Int
  status : TransferStatus
  createdAt : Nat
  completedAt : Option Nat
  cancelledAt : Option Nat
deriving DecidableEq, Repr

/-- Modelled from the spec: one row of the append-only `balance_changes`
audit table of the absent service. -/
structure BalanceChange where
  externalId : Nat
  userId : String
  delta : Int
  resultingBalance : Int
  resultingVersion : Nat
deriving DecidableEq, Repr

/-- Modelled from the spec: the durable state of the absent service (the
relational store behind BalanceStore and TransferLedger), plus the id
allocator for service-assigned monotonically increasing transfer ids. -/
structure LedgerState where
  balances : List UserBalance
  transfers : List Transfer
  balanceChanges : List BalanceChange
  nextId : Nat
deriving DecidableEq, Repr

/-- Modelled from the spec: the error taxonomy of the absent service
(section 7 of the specification). -/
inductive ServiceError where
  | InvalidArgument
  | Conflict
  | NotFound
  | InsufficientBalance
  | InvalidState
  | WindowExpired
  | VersionConflict
deriving DecidableEq, Repr

/-- Modelled from the spec: the HTTP status code each service error is
surfaced as (`VersionConflict` is retried internally and only surfaces as a
transient 5xx). -/
def ServiceError.httpStatus : ServiceError → Nat
  | .InvalidArgument => 400
  | .Conflict => 409
  | .NotFound => 404
  | .InsufficientBalance => 400
  | .InvalidState => 400
  | .WindowExpired => 400
  | .VersionConflict => 500

/-- Look up a user's balance row (first match wins). -/
def findBalance (bs : List UserBalance) (uid : String) : Option UserBalance :=
  bs.find? (fun b => b.userId == uid)

/-- Replace the first balance row with the given userId. -/
def replaceBalance : List UserBalance → String → UserBalance → List UserBalance
  | [], _, _ => []
  | b :: rest, uid, nb =>
      if b.userId == uid then nb :: rest else b :: replaceBalance rest uid nb

/-- Look up a transfer row by id (first match wins). -/
def findTransfer (ts : List Transfer) (id : Nat) : Option Transfer :=
  ts.find? (fun t => t.id == id)

/-- Replace the first transfer row with the given id. -/
def replaceTransfer : List Transfer → Nat → Transfer → List Transfer
  | [], _, _ => []
  | t :: rest, id, nt =>
      if t.id == id then nt :: rest else t :: replaceTransfer rest id nt

/-- Modelled from the spec: userId format rule of the absent service —
minimum length 3, characters restricted to alphanumerics, underscore,
hyphen. -/
def validUserId (uid : String) : Bool :=
  uid.length ≥ 3 && uid.toList.all (fun c => c.isAlphanum || c == '_' || c == '-')

/-- Modelled from the spec: `BalanceStore.create` of the absent service.
Fails with `Conflict` on duplicate userId, `InvalidArgument` on a bad
userId or negative initial balance; on success version starts at 0. -/
def createUser (s : LedgerState) (uid : String) (initialBalance : Int) :
    Except ServiceError (UserBalance × LedgerState) :=
  if !validUserId uid then .error .InvalidArgument
  else if initialBalance < 0 then .error .InvalidArgument
  else match findBalance s.balances uid with
    | some _ => .error .Conflict
    | none =>
        let nb : UserBalance := { userId := uid, balance := initialBalance, version := 0 }
        .ok (nb, { s with balances := s.balances ++ [nb] })

/-- Modelled from the spec: `BalanceStore.compareAndApply` of the absent
service — the sole balance-mutation primitive.  Atomically adds `delta` and
increments the version, but only when the stored version equals
`expectedVersion` and the resulting balance stays non-negative. -/
def compareAndApply (s : LedgerState) (uid : String) (expectedVersion : Nat)
    (delta : Int) : Except ServiceError (UserBalance × LedgerState) :=
  match findBalance s.balances uid with
  | none => .error .NotFound
  | some b =>
      if b.version ≠ expectedVersion then .error .VersionConflict
      else if b.balance + delta < 0 then .error .InsufficientBalance
      else
        let nb : UserBalance :=
          { userId := b.userId, balance := b.balance + delta, version := b.version + 1 }
        .ok (nb, { s with balances := replaceBalance s.balances uid nb })

/-- Modelled from the spec: `TransferLedger.transition` of the absent
service — atomically updates the status of a transfer row only when its
current status is in `fromStates`; fails with `InvalidState` otherwise.
`upd` sets the new status together with its terminal timestamp. -/
def transition (s : LedgerState) (id : Nat) (fromStates : List TransferStatus)
    (upd : Transfer → Transfer) : Except ServiceError (Transfer × LedgerState) :=
  match findTransfer s.transfers id with
  | none => .error .NotFound
  | some t =>
      if t.status ∈ fromStates then
        let nt := upd t
        .ok (nt, { s with transfers := replaceTransfer s.transfers id nt })
      else .error .InvalidState

/-- Modelled from the spec: the 10-minute cancellation window of the absent
service, in seconds. -/
def cancellationWindow : Nat := 600

/-- Modelled from the spec: `TransferEngine.submitTransfer` of the absent
service, in the asynchronous-completion variant the test suite pins down:
validation (positive amount, distinct existing users, sufficient balance)
happens synchronously; on success a `PENDING` row is created and returned,
and the debit/credit pair is applied later by `completeTransfer`.  An
insufficient balance is rejected synchronously with no ledger row (design
choice (a) of section 4.3 step 3). -/
def submitTransfer (s : LedgerState) (now : Nat) (fromUserId toUserId : String)
    (amount : Int) : Except ServiceError (Transfer × LedgerState) :=
  if amount ≤ 0 then .error .InvalidArgument
  else if fromUserId == toUserId then .error .InvalidArgument
  else match findBalance s.balances fromUserId, findBalance s.balances toUserId with
    | none, _ => .error .NotFound
    | _, none => .error .NotFound
    | some fb, some _ =>
        if fb.balance < amount then .error .InsufficientBalance
        else
          let t : Transfer :=
            { id := s.nextId, fromUserId := fromUserId, toUserId := toUserId
              amount := amount, status := .PENDING, createdAt := now
              completedAt := none, cancelledAt := none }
          .ok (t, { s with transfers := s.transfers ++ [t], nextId := s.nextId + 1 })

/-- Modelled from the spec: the asynchronous resolution step of
`TransferEngine` of the absent service.  Guarded by the `PENDING`-only
transition; applies the debit and the credit through `compareAndApply`
against freshly read versions, records the two `BalanceChange` rows, and
transitions to `COMPLETED` with `completedAt` set; a debit that would go
negative leaves balances untouched and resolves the row to `FAILED`. -/
def completeTransfer (s : LedgerState) (now : Nat) (id : Nat) :
    Except ServiceError (Transfer × LedgerState) :=
  match findTransfer s.transfers id with
  | none => .error .NotFound
  | some t =>
      if t.status ≠ .PENDING then .error .InvalidState
      else match findBalance s.balances t.fromUserId with
        | none => .error .NotFound
        | some fb =>
            match compareAndApply s t.fromUserId fb.version (-t.amount) with
            | .error .InsufficientBalance =>
                transition s id [.PENDING] (fun u => { u with status := .FAILED })
            | .error e => .error e
            | .ok (dfb, s1) =>
                match findBalance s1.balances t.toUserId with
                | none => .error .NotFound
                | some tb =>
                    match compareAndApply s1 t.toUserId tb.version t.amount with
                    | .error e => .error e
                    | .ok (ctb, s2) =>
                        let debitRow : BalanceChange :=
                          { externalId := t.id, userId := t.fromUserId
                            delta := -t.amount, resultingBalance := dfb.balance
                            resultingVersion := dfb.version }
                        let creditRow : BalanceChange :=
                          { externalId := t.id, userId := t.toUserId
                            delta := t.amount, resultingBalance := ctb.balance
                            resultingVersion := ctb.version }
                        let s3 :=
                          { s2 with balanceChanges :=
                              s2.balanceChanges ++ [debitRow, creditRow] }
                        transition s3 id [.PENDING]
                          (fun u => { u with status := .COMPLETED, completedAt := some now })

/-- Modelled from the spec: `TransferEngine.cancelTransfer` of the absent
service.  `NotFound` for an unknown id, `InvalidState` for a non-`PENDING`
row, `WindowExpired` when more than 10 minutes have elapsed since creation;
on success the guarded transition sets `CANCELLED` and `cancelledAt`,
touching no balances and writing no `BalanceChange` rows. -/
def cancelTransfer (s : LedgerState) (now : Nat) (id : Nat) :
    Except ServiceError (Transfer × LedgerState) :=
  match findTransfer s.transfers id with
  | none => .error .NotFound
  | some t =>
      if t.status ≠ .PENDING then .error .InvalidState
      else if now - t.createdAt > cancellationWindow then .error .WindowExpired
      else transition s id [.PENDING]
        (fun u => { u with status := .CANCELLED, cancelledAt := some now })

/-- Modelled from the spec: the page returned by `HistoryQueryService` of
the absent service, items plus pagination metadata. -/
structure HistoryPage where
  transfers : List Transfer
  currentPage : Nat
  pageSize : Nat
  totalElements : Nat
  totalPages : Nat
  hasNext : Bool
  hasPrevious : Bool
deriving DecidableEq, Repr

/-- Recency order on transfer rows: `createdAt` descending, ties broken by
id descending. -/
def recencyGE (a b : Transfer) : Prop :=
  b.createdAt < a.createdAt ∨ (b.createdAt = a.createdAt ∧ b.id ≤ a.id)

instance : DecidableRel recencyGE := fun a b => by
  unfold recencyGE; infer_instance

/-- Modelled from the spec: `HistoryQueryService.listByUser` of the absent
service.  `size` bounded to `[1, 100]`; selects the transfers where the
user is sender or recipient, sorts by `createdAt` descending with id
descending as tie-break, and returns the requested page with metadata. -/
def listByUser (s : LedgerState) (uid : String) (page size : Nat) :
    Except ServiceError HistoryPage :=
  if size < 1 || size > 100 then .error .InvalidArgument
  else
    let items := s.transfers.filter (fun t => t.fromUserId == uid || t.toUserId == uid)
    let sorted := items.insertionSort recencyGE
    let totalElements := items.length
    let totalPages := (totalElements + size - 1) / size
    .ok { transfers := (sorted.drop (page * size)).take size
          currentPage := page, pageSize := size
          totalElements := totalElements, totalPages := totalPages
          hasNext := decide (page < totalPages - 1)
          hasPrevious := decide (0 < page) }

/-- An observable mutating request against the service; completions are the
engine's own asynchronous resolution steps. -/
inductive Op where
  | mkUser (uid : String) (initialBalance : Int)
  | submit (now : Nat) (fromUserId toUserId : String) (amount : Int)
  | complete (now : Nat) (id : Nat)
  | cancel (now : Nat) (id : Nat)
deriving DecidableEq, Repr

/-- Apply one operation to the durable state; a rejected operation leaves
the state unchanged (no partial mutation, section 7 of the spec). -/
def applyOp (s : LedgerState) : Op → LedgerState
  | .mkUser uid init =>
      match createUser s uid init with
      | .ok (_, s2) => s2
      | .error _ => s
  | .submit now f t a =>
      match submitTransfer s now f t a with
      | .ok (_, s2) => s2
      | .error _ => s
  | .complete now id =>
      match completeTransfer s now id with
      | .ok (_, s2) => s2
      | .error _ => s
  | .cancel now id =>
      match cancelTransfer s now id with
      | .ok (_, s2) => s2
      | .error _ => s

/-- Run a sequence of operations left to right. -/
def runOps (s : LedgerState) (ops : List Op) : LedgerState :=
  ops.foldl applyOp s

/-- Operations of the transfer lifecycle (no user creation). -/
def Op.isTransferOp : Op → Bool
  | .mkUser _ _ => false
  | .submit _ _ _ _ => true
  | .complete _ _ => true
  | .cancel _ _ => true

/-- The system-wide sum of stored balances, in cents. -/
def totalBalance (s : LedgerState) : Int :=
  (s.balances.map (fun b => b.balance)).sum

/-- Every stored balance is non-negative. -/
def NonNegBalances (s : LedgerState) : Prop :=
  ∀ b ∈ s.balances, 0 ≤ b.balance

lemma map_sum_replaceBalance (bs : List UserBalance) (uid : String)
    (nb b : UserBalance) (h : findBalance bs uid = some b) :
    ((replaceBalance bs uid nb).map (fun x => x.balance)).sum
      = (bs.map (fun x => x.balance)).sum - b.balance + nb.balance := by
  induction bs with
  | nil => simp [findBalance] at h
  | cons hd tl ih =>
      rw [findBalance, List.find?_cons_eq_some] at h
      by_cases hh : (hd.userId == uid) = true
      · have hb : hd = b := by
          rcases h with ⟨_, hb⟩ | ⟨hneg, _⟩
          · exact hb
          · simp [hh] at hneg
        subst hb
        simp only [replaceBalance, if_pos hh, List.map_cons, List.sum_cons]
        ring
      · have h2 : findBalance tl uid = some b := by
          rcases h with ⟨hp, _⟩ | ⟨_, h2⟩
          · exact absurd hp hh
          · exact h2
        simp only [replaceBalance, if_neg hh, List.map_cons, List.sum_cons, ih h2]
        ring

lemma mem_replaceBalance {bs : List UserBalance} {uid : String}
    {nb x : UserBalance} (hx : x ∈ replaceBalance bs uid nb) :
    x ∈ bs ∨ x = nb := by
  induction bs with
  | nil => simp [replaceBalance] at hx
  | cons hd tl ih =>
      by_cases hh : hd.userId == uid
      · rw [replaceBalance, if_pos hh] at hx
        rcases List.mem_cons.mp hx with h | h
        · exact Or.inr h
        · exact Or.inl (List.mem_cons_of_mem _ h)
      · rw [replaceBalance, if_neg hh] at hx
        rcases List.mem_cons.mp hx with h | h
        · exact Or.inl (h ▸ List.mem_cons_self _ _)
        · rcases ih h with h2 | h2
          · exact Or.inl (List.mem_cons_of_mem _ h2)
          · exact Or.inr h2

/-- `compareAndApply` succeeds exactly by adding `delta` to the found row. -/
lemma compareAndApply_ok {s : LedgerState} {uid : String} {v : Nat} {delta : Int}
    {nb : UserBalance} {s2 : LedgerState}
    (h : compareAndApply s uid v delta = .ok (nb, s2)) :
    ∃ b, findBalance s.balances uid = some b ∧ b.version = v ∧
      0 ≤ b.balance + delta ∧
      nb = { userId := b.userId, balance := b.balance + delta, version := b.version + 1 } ∧
      s2 = { s with balances := replaceBalance s.balances uid nb } := by
  unfold compareAndApply at h
  split at h
  · cases h
  next b hfb =>
    split at h
    · cases h
    next hv =>
      split at h
      · cases h
      next hneg =>
        simp only [Except.ok.injEq, Prod.mk.injEq] at h
        obtain ⟨hnb, hs2⟩ := h
        refine ⟨b, hfb, not_not.mp hv, by omega, hnb.symm, ?_⟩
        rw [← hs2, hnb]

/-- Inversion of a successful `transition`: the row was found, its status
was among the allowed source states, and only that row changed. -/
lemma transition_ok {s : LedgerState} {id : Nat} {fs : List TransferStatus}
    {upd : Transfer → Transfer} {t2 : Transfer} {s2 : LedgerState}
    (h : transition s id fs upd = .ok (t2, s2)) :
    ∃ t, findTransfer s.transfers id = some t ∧ t.status ∈ fs ∧ t2 = upd t ∧
      s2 = { s with transfers := replaceTransfer s.transfers id (upd t) } := by
  unfold transition at h
  split at h
  · cases h
  next t hft =>
    split at h
    next hmem =>
      simp only [Except.ok.injEq, Prod.mk.injEq] at h
      exact ⟨t, hft, hmem, h.1.symm, h.2.symm⟩
    · cases h

/-- Inversion of a successful `submitTransfer`: validation passed and the
only durable effect is appending one fresh `PENDING` row. -/
lemma submitTransfer_ok {s : LedgerState} {now : Nat} {f t : String} {a : Int}
    {tr : Transfer} {s2 : LedgerState}
    (h : submitTransfer s now f t a = .ok (tr, s2)) :
    0 < a ∧ f ≠ t ∧
    (∃ fb, findBalance s.balances f = some fb ∧ a ≤ fb.balance) ∧
    tr = { id := s.nextId, fromUserId := f, toUserId := t, amount := a,
           status := .PENDING, createdAt := now,
           completedAt := none, cancelledAt := none } ∧
    s2 = { s with transfers := s.transfers ++ [tr], nextId := s.nextId + 1 } := by
  unfold submitTransfer at h
  split at h
  · cases h
  next hpos =>
    split at h
    · cases h
    next hne =>
      split at h
      · cases h
      · cases h
      next fb tb hfb htb =>
        split at h
        · cases h
        next hbal =>
          simp only [Except.ok.injEq, Prod.mk.injEq] at h
          obtain ⟨htr, hs2⟩ := h
          refine ⟨by omega, by simpa using hne, ⟨fb, hfb, by omega⟩, htr.symm, ?_⟩
          rw [← hs2, htr]

/-- Inversion of a successful `cancelTransfer`: the row was `PENDING` and
inside the window; balances and audit rows are untouched. -/
lemma cancelTransfer_ok {s : LedgerState} {now : Nat} {id : Nat}
    {t2 : Transfer} {s2 : LedgerState}
    (h : cancelTransfer s now id = .ok (t2, s2)) :
    ∃ t, findTransfer s.transfers id = some t ∧ t.status = .PENDING ∧
      now - t.createdAt ≤ cancellationWindow ∧
      t2 = { t with status := .CANCELLED, cancelledAt := some now } ∧
      s2 = { s with transfers := replaceTransfer s.transfers id t2 } := by
  unfold cancelTransfer at h
  split at h
  · cases h
  next t hft =>
    split at h
    · cases h
    next hpen =>
      split at h
      · cases h
      next hwin =>
        obtain ⟨u, hfu, hmem, ht2, hs2⟩ := transition_ok h
        rw [hft] at hfu
        cases hfu
        exact ⟨t, hft, not_not.mp (by simpa using hpen), by omega,
          ht2, by rw [hs2, ht2]⟩

/-- A successful `compareAndApply` shifts the total balance by exactly its
delta, touches no other table, and keeps every balance non-negative. -/
lemma compareAndApply_ok_effect {s : LedgerState} {uid : String} {v : Nat}
    {d : Int} {nb : UserBalance} {s2 : LedgerState}
    (h : compareAndApply s uid v d = .ok (nb, s2)) :
    totalBalance s2 = totalBalance s + d ∧ s2.transfers = s.transfers ∧
    s2.balanceChanges = s.balanceChanges ∧ s2.nextId = s.nextId ∧
    (NonNegBalances s → NonNegBalances s2) := by
  obtain ⟨b, hfb, hv, hnn, hnb, hs2⟩ := compareAndApply_ok h
  have hbal : nb.balance = b.balance + d := by rw [hnb]
  subst hs2
  refine ⟨?_, rfl, rfl, rfl, ?_⟩
  · unfold totalBalance
    rw [map_sum_replaceBalance s.balances uid nb b hfb, hbal]
    ring
  · intro hs x hx
    rcases mem_replaceBalance hx with hmem | hx
    · exact hs x hmem
    · rw [hx, hbal]; exact hnn

/-- A successful asynchronous completion conserves the system-wide balance
sum and keeps every balance non-negative; its only other effects are on the
`transfers` and `balance_changes` tables. -/
lemma completeTransfer_ok_effect {s : LedgerState} {now id : Nat}
    {t2 : Transfer} {s2 : LedgerState}
    (h : completeTransfer s now id = .ok (t2, s2)) :
    totalBalance s2 = totalBalance s ∧ (NonNegBalances s → NonNegBalances s2) := by
  unfold completeTransfer at h
  split at h
  · cases h
  next t hft =>
    split at h
    · cases h
    next hpen =>
      split at h
      · cases h
      next fb hfb =>
        split at h
        · -- debit failed with InsufficientBalance: the row is resolved FAILED
          obtain ⟨u, _, _, _, hs2⟩ := transition_ok h
          subst hs2
          exact ⟨rfl, fun hs => hs⟩
        · cases h
        next dfb s1 hcas1 =>
          split at h
          · cases h
          next tb htb =>
            split at h
            · cases h
            next ctb s2x hcas2 =>
              obtain ⟨hsum1, _, _, _, hnn1⟩ := compareAndApply_ok_effect hcas1
              obtain ⟨hsum2, _, _, _, hnn2⟩ := compareAndApply_ok_effect hcas2
              obtain ⟨u, _, _, _, hs2⟩ := transition_ok h
              subst hs2
              constructor
              · show totalBalance s2x = totalBalance s
                linarith
              · intro hs
                show NonNegBalances s2x
                exact hnn2 (hnn1 hs)

lemma findBalance_some_userId {bs : List UserBalance} {uid : String}
    {b : UserBalance} (h : findBalance bs uid = some b) : b.userId = uid := by
  have := List.find?_some h
  simpa using this

lemma findTransfer_some_id {ts : List Transfer} {id : Nat}
    {t : Transfer} (h : findTransfer ts id = some t) : t.id = id := by
  have := List.find?_some h
  simpa using this

lemma findBalance_replaceBalance_self {bs : List UserBalance} {uid : String}
    {b nb : UserBalance} (h : findBalance bs uid = some b) (hnb : nb.userId = uid) :
    findBalance (replaceBalance bs uid nb) uid = some nb := by
  induction bs with
  | nil => simp [findBalance] at h
  | cons hd tl ih =>
      by_cases hh : (hd.userId == uid) = true
      · rw [replaceBalance, if_pos hh]
        rw [findBalance, List.find?_cons_of_pos _ (by simp [hnb])]
      · rw [findBalance, List.find?_cons_eq_some] at h
        rcases h with ⟨hp, _⟩ | ⟨_, h2⟩
        · exact absurd hp hh
        · rw [replaceBalance, if_neg hh, findBalance,
            List.find?_cons_of_neg _ (by simpa using hh)]
          exact ih h2

lemma findBalance_replaceBalance_other {bs : List UserBalance} {uid uid2 : String}
    {nb : UserBalance} (hnb : nb.userId = uid) (hne : uid2 ≠ uid) :
    findBalance (replaceBalance bs uid nb) uid2 = findBalance bs uid2 := by
  induction bs with
  | nil => simp [replaceBalance]
  | cons hd tl ih =>
      unfold findBalance
      by_cases hh : (hd.userId == uid) = true
      · rw [replaceBalance, if_pos hh]
        have hhd : hd.userId = uid := by simpa using hh
        have e1 : List.find? (fun b => b.userId == uid2) (nb :: tl)
            = List.find? (fun b => b.userId == uid2) tl := by
          apply List.find?_cons_of_neg
          simp [hnb, Ne.symm hne]
        have e2 : List.find? (fun b => b.userId == uid2) (hd :: tl)
            = List.find? (fun b => b.userId == uid2) tl := by
          apply List.find?_cons_of_neg
          simp [hhd, Ne.symm hne]
        rw [e1, e2]
      · rw [replaceBalance, if_neg hh]
        by_cases hh2 : (hd.userId == uid2) = true
        · have e1 : List.find? (fun b => b.userId == uid2) (hd :: replaceBalance tl uid nb)
              = some hd := by
            apply List.find?_cons_of_pos
            exact hh2
          have e2 : List.find? (fun b => b.userId == uid2) (hd :: tl) = some hd := by
            apply List.find?_cons_of_pos
            exact hh2
          rw [e1, e2]
        · have e1 : List.find? (fun b => b.userId == uid2) (hd :: replaceBalance tl uid nb)
              = List.find? (fun b => b.userId == uid2) (replaceBalance tl uid nb) := by
            apply List.find?_cons_of_neg
            simpa using hh2
          have e2 : List.find? (fun b => b.userId == uid2) (hd :: tl)
              = List.find? (fun b => b.userId == uid2) tl := by
            apply List.find?_cons_of_neg
            simpa using hh2
          rw [e1, e2]
          exact ih

/-- Every transfer-lifecycle operation (submission, completion,
cancellation, whether accepted or rejected) conserves the system-wide
balance sum. -/
lemma applyOp_totalBalance (s : LedgerState) (op : Op)
    (hop : op.isTransferOp = true) :
    totalBalance (applyOp s op) = totalBalance s := by
  cases op with
  | mkUser uid init => simp [Op.isTransferOp] at hop
  | submit now f t a =>
      cases hsub : submitTransfer s now f t a with
      | error e => simp only [applyOp, hsub]
      | ok p =>
          obtain ⟨tr, s2⟩ := p
          obtain ⟨_, _, _, _, hs2⟩ := submitTransfer_ok hsub
          subst hs2
          simp only [applyOp, hsub]
          rfl
  | complete now id =>
      cases hc : completeTransfer s now id with
      | error e => simp only [applyOp, hc]
      | ok p =>
          obtain ⟨t2, s2⟩ := p
          simp only [applyOp, hc]
          exact (completeTransfer_ok_effect hc).1
  | cancel now id =>
      cases hc : cancelTransfer s now id with
      | error e => simp only [applyOp, hc]
      | ok p =>
          obtain ⟨t2, s2⟩ := p
          obtain ⟨t, _, _, _, _, hs2⟩ := cancelTransfer_ok hc
          subst hs2
          simp only [applyOp, hc]
          rfl

/-- Every operation, user creation included, keeps all balances
non-negative. -/
lemma applyOp_nonneg (s : LedgerState) (op : Op) (hs : NonNegBalances s) :
    NonNegBalances (applyOp s op) := by
  cases op with
  | mkUser uid init =>
      cases hc : createUser s uid init with
      | error e => simp only [applyOp, hc]; exact hs
      | ok p =>
          obtain ⟨nb, s2⟩ := p
          simp only [applyOp, hc]
          unfold createUser at hc
          split at hc
          · cases hc
          split at hc
          · cases hc
          next hneg =>
            split at hc
            · cases hc
            · simp only [Except.ok.injEq, Prod.mk.injEq] at hc
              obtain ⟨hnb, hs2⟩ := hc
              subst hs2
              intro x hx
              rcases List.mem_append.mp hx with hmem | hmem
              · exact hs x hmem
              · rw [List.mem_singleton.mp hmem]
                show 0 ≤ init
                omega
  | submit now f t a =>
      cases hsub : submitTransfer s now f t a with
      | error e => simp only [applyOp, hsub]; exact hs
      | ok p =>
          obtain ⟨tr, s2⟩ := p
          obtain ⟨_, _, _, _, hs2⟩ := submitTransfer_ok hsub
          subst hs2
          simp only [applyOp, hsub]
          exact hs
  | complete now id =>
      cases hc : completeTransfer s now id with
      | error e => simp only [applyOp, hc]; exact hs
      | ok p =>
          obtain ⟨t2, s2⟩ := p
          simp only [applyOp, hc]
          exact (completeTransfer_ok_effect hc).2 hs
  | cancel now id =>
      cases hc : cancelTransfer s now id with
      | error e => simp only [applyOp, hc]; exact hs
      | ok p =>
          obtain ⟨t2, s2⟩ := p
          obtain ⟨t, _, _, _, _, hs2⟩ := cancelTransfer_ok hc
          subst hs2
          simp only [applyOp, hc]
          exact hs

/-- A sample ledger with three users, used to instantiate the general
theorems on concrete inputs (amounts are in cents). -/
def sampleState : LedgerState :=
  { balances :=
      [ { userId := "alice", balance := 100000, version := 0 }
      , { userId := "bob", balance := 50000, version := 0 }
      , { userId := "carol", balance := 50000, version := 0 } ]
    transfers := []
    balanceChanges := []
    nextId := 0 }

/-- C1: over a fixed set of existing users, any sequence of transfer
operations (submissions, completions, cancellations — in particular any
sequence in which every transfer completes) leaves the sum of all stored
balances unchanged after every step: a completed transfer debits the
sender and credits the recipient by the same amount, never creating or
destroying value. -/
theorem completed_transfers_conserve_total_balance
    (s : LedgerState) (ops : List Op)
    (h : ∀ op ∈ ops, op.isTransferOp = true) :
    totalBalance (runOps s ops) = totalBalance s := by
  induction ops generalizing s with
  | nil => rfl
  | cons op rest ih =>
      have h1 := h op (List.mem_cons_self op rest)
      have h2 : ∀ o ∈ rest, o.isTransferOp = true :=
        fun o ho => h o (List.mem_cons_of_mem _ ho)
      show totalBalance (runOps (applyOp s op) rest) = totalBalance s
      rw [ih (applyOp s op) h2, applyOp_totalBalance s op h1]

/-- Witness for C1: two completed transfers among the three sample users
conserve the 2000.00 total. -/
theorem completed_transfers_conserve_total_balance_witness :
    totalBalance (runOps sampleState
      [Op.submit 0 "alice" "bob" 30000, Op.complete 1 0,
       Op.submit 2 "bob" "carol" 20000, Op.complete 3 1]) = totalBalance sampleState :=
  completed_transfers_conserve_total_balance sampleState _ (by decide)

/-- C2: starting from a state where every stored balance is non-negative,
no sequence of operations (user creations, transfer submissions,
completions, cancellations) can ever drive any user's balance negative. -/
theorem balances_never_negative (s : LedgerState) (ops : List Op)
    (hs : NonNegBalances s) : NonNegBalances (runOps s ops) := by
  induction ops generalizing s with
  | nil => exact hs
  | cons op rest ih =>
      exact ih (applyOp s op) (applyOp_nonneg s op hs)

/-- Witness for C2: the invariant holds after a concrete mixed sequence of
operations on the sample ledger. -/
theorem balances_never_negative_witness :
    NonNegBalances (runOps sampleState
      [Op.mkUser "dave" 0, Op.submit 0 "alice" "bob" 100000, Op.complete 1 0,
       Op.submit 2 "alice" "carol" 1, Op.cancel 3 1]) :=
  balances_never_negative sampleState _ (by unfold NonNegBalances; decide)

/-- C3: a transfer between two distinct existing users whose amount
strictly exceeds the sender's balance is rejected with a 400
`InsufficientBalance`; the durable state — balances, transfer rows,
`BalanceChange` rows — is left completely unchanged. -/
theorem insufficient_balance_rejected
    (s : LedgerState) (now : Nat) (f t : String) (a : Int) (fb tb : UserBalance)
    (hne : f ≠ t) (hpos : 0 < a)
    (hfb : findBalance s.balances f = some fb)
    (htb : findBalance s.balances t = some tb)
    (hover : fb.balance < a) :
    submitTransfer s now f t a = .error .InsufficientBalance ∧
    ServiceError.InsufficientBalance.httpStatus = 400 ∧
    applyOp s (Op.submit now f t a) = s := by
  have h1 : ¬ a ≤ 0 := by omega
  have h2 : (f == t) = false := by simp [hne]
  have hsub : submitTransfer s now f t a = .error .InsufficientBalance := by
    unfold submitTransfer
    rw [if_neg h1]
    rw [if_neg (by simp [h2])]
    rw [hfb, htb]
    simp [hover]
  exact ⟨hsub, rfl, by simp only [applyOp, hsub]⟩

/-- Witness for C3: in the sample ledger, alice (balance 1000.00) cannot
send 9999.99 to bob; the state is untouched. -/
theorem insufficient_balance_rejected_witness :
    submitTransfer sampleState 0 "alice" "bob" 999999 = .error .InsufficientBalance ∧
    ServiceError.InsufficientBalance.httpStatus = 400 ∧
    applyOp sampleState (Op.submit 0 "alice" "bob" 999999) = sampleState :=
  insufficient_balance_rejected sampleState 0 "alice" "bob" 999999
    { userId := "alice", balance := 100000, version := 0 }
    { userId := "bob", balance := 50000, version := 0 }
    (by decide) (by decide) (by decide) (by decide) (by decide)

/-- C9: a submission with a non-positive amount or with sender equal to
recipient is rejected with a 400 `InvalidArgument` and the durable state
is left completely unchanged. -/
theorem invalid_submission_rejected
    (s : LedgerState) (now : Nat) (f t : String) (a : Int)
    (h : a ≤ 0 ∨ f = t) :
    submitTransfer s now f t a = .error .InvalidArgument ∧
    ServiceError.InvalidArgument.httpStatus = 400 ∧
    applyOp s (Op.submit now f t a) = s := by
  have hsub : submitTransfer s now f t a = .error .InvalidArgument := by
    unfold submitTransfer
    by_cases h0 : a ≤ 0
    · rw [if_pos h0]
    · rw [if_neg h0]
      have hft : f = t := h.resolve_left h0
      rw [if_pos (by simp [hft])]
  exact ⟨hsub, rfl, by simp only [applyOp, hsub]⟩

/-- Witness for C9: a self-transfer of a positive amount and a zero-amount
transfer are both rejected with the state untouched. -/
theorem invalid_submission_rejected_witness :
    submitTransfer sampleState 0 "alice" "alice" 10000 = .error .InvalidArgument ∧
    ServiceError.InvalidArgument.httpStatus = 400 ∧
    applyOp sampleState (Op.submit 0 "alice" "alice" 10000) = sampleState :=
  invalid_submission_rejected sampleState 0 "alice" "alice" 10000 (Or.inr rfl)

lemma findTransfer_append (ts ts2 : List Transfer) (id : Nat) :
    findTransfer (ts ++ ts2) id = (findTransfer ts id).or (findTransfer ts2 id) := by
  simp [findTransfer, List.find?_append]

lemma findTransfer_replaceTransfer_other {ts : List Transfer} {id id2 : Nat}
    {nt : Transfer} (hnt : nt.id = id2) (hne : id ≠ id2) :
    findTransfer (replaceTransfer ts id2 nt) id = findTransfer ts id := by
  induction ts with
  | nil => simp [replaceTransfer]
  | cons hd tl ih =>
      unfold findTransfer
      by_cases hh : (hd.id == id2) = true
      · rw [replaceTransfer, if_pos hh]
        have hhd : hd.id = id2 := by simpa using hh
        have e1 : List.find? (fun t => t.id == id) (nt :: tl)
            = List.find? (fun t => t.id == id) tl := by
          apply List.find?_cons_of_neg
          simp [hnt, Ne.symm hne]
        have e2 : List.find? (fun t => t.id == id) (hd :: tl)
            = List.find? (fun t => t.id == id) tl := by
          apply List.find?_cons_of_neg
          simp [hhd, Ne.symm hne]
        rw [e1, e2]
      · rw [replaceTransfer, if_neg hh]
        by_cases hh2 : (hd.id == id) = true
        · have e1 : List.find? (fun t => t.id == id) (hd :: replaceTransfer tl id2 nt)
              = some hd := by
            apply List.find?_cons_of_pos
            exact hh2
          have e2 : List.find? (fun t => t.id == id) (hd :: tl) = some hd := by
            apply List.find?_cons_of_pos
            exact hh2
          rw [e1, e2]
        · have e1 : List.find? (fun t => t.id == id) (hd :: replaceTransfer tl id2 nt)
              = List.find? (fun t => t.id == id) (replaceTransfer tl id2 nt) := by
            apply List.find?_cons_of_neg
            simpa using hh2
          have e2 : List.find? (fun t => t.id == id) (hd :: tl)
              = List.find? (fun t => t.id == id) tl := by
            apply List.find?_cons_of_neg
            simpa using hh2
          rw [e1, e2]
          exact ih

/-- Inversion of a successful completion on the `transfers` table: the row
was found `PENDING` and is replaced in place, keeping its id. -/
lemma completeTransfer_ok_transfers {s : LedgerState} {now id2 : Nat}
    {t2 : Transfer} {s2 : LedgerState}
    (h : completeTransfer s now id2 = .ok (t2, s2)) :
    ∃ u, findTransfer s.transfers id2 = some u ∧ u.status = .PENDING ∧
      t2.id = u.id ∧ s2.transfers = replaceTransfer s.transfers id2 t2 := by
  unfold completeTransfer at h
  split at h
  · cases h
  next t hft =>
    split at h
    · cases h
    next hpen =>
      split at h
      · cases h
      next fb hfb =>
        split at h
        · -- insufficient balance at application: resolved FAILED in place
          obtain ⟨u, hfu, humem, ht2, hs2⟩ := transition_ok h
          refine ⟨u, hfu, by simpa using humem, by rw [ht2], ?_⟩
          rw [hs2, ht2]
        · cases h
        next dfb s1 hcas1 =>
          split at h
          · cases h
          next tb htb =>
            split at h
            · cases h
            next ctb s2x hcas2 =>
              obtain ⟨_, htr1, _, _, _⟩ := compareAndApply_ok_effect hcas1
              obtain ⟨_, htr2, _, _, _⟩ := compareAndApply_ok_effect hcas2
              obtain ⟨u, hfu, humem, ht2, hs2⟩ := transition_ok h
              have htr3 : s2x.transfers = s.transfers := by rw [htr2, htr1]
              refine ⟨u, ?_, by simpa using humem, by rw [ht2], ?_⟩
              · rw [← htr3]
                exact hfu
              · rw [hs2, ht2]
                show replaceTransfer s2x.transfers id2 _ = _
                rw [htr3]

/-- No operation ever changes a transfer row that is already out of
`PENDING`: the `PENDING`-only transition guard protects it. -/
lemma applyOp_preserves_nonpending {s : LedgerState} {id : Nat} {t : Transfer}
    (hft : findTransfer s.transfers id = some t)
    (hnp : t.status ≠ .PENDING) (op : Op) :
    findTransfer (applyOp s op).transfers id = some t := by
  cases op with
  | mkUser uid init =>
      cases hc : createUser s uid init with
      | error e => simp only [applyOp, hc]; exact hft
      | ok p =>
          obtain ⟨nb, s2⟩ := p
          simp only [applyOp, hc]
          unfold createUser at hc
          split at hc
          · cases hc
          split at hc
          · cases hc
          split at hc
          · cases hc
          · simp only [Except.ok.injEq, Prod.mk.injEq] at hc
            rw [← hc.2]
            exact hft
  | submit now f tu a =>
      cases hsub : submitTransfer s now f tu a with
      | error e => simp only [applyOp, hsub]; exact hft
      | ok p =>
          obtain ⟨tr, s2⟩ := p
          obtain ⟨_, _, _, _, hs2⟩ := submitTransfer_ok hsub
          subst hs2
          simp only [applyOp, hsub]
          show findTransfer (s.transfers ++ [tr]) id = some t
          rw [findTransfer_append, hft]
          rfl
  | complete now id2 =>
      cases hc : completeTransfer s now id2 with
      | error e => simp only [applyOp, hc]; exact hft
      | ok p =>
          obtain ⟨t2, s2⟩ := p
          simp only [applyOp, hc]
          obtain ⟨u, hfu, hupen, hid, hs2⟩ := completeTransfer_ok_transfers hc
          by_cases he : id = id2
          · subst he
            rw [hft] at hfu
            cases hfu
            exact absurd hupen hnp
          · rw [hs2, findTransfer_replaceTransfer_other (hid.trans (findTransfer_some_id hfu)) he]
            exact hft
  | cancel now id2 =>
      cases hc : cancelTransfer s now id2 with
      | error e => simp only [applyOp, hc]; exact hft
      | ok p =>
          obtain ⟨t2, s2⟩ := p
          obtain ⟨u, hfu, hupen, _, ht2, hs2⟩ := cancelTransfer_ok hc
          subst hs2
          simp only [applyOp, hc]
          by_cases he : id = id2
          · subst he
            rw [hft] at hfu
            cases hfu
            exact absurd hupen hnp
          · show findTransfer (replaceTransfer s.transfers id2 t2) id = some t
            have hu : u.id = id2 := findTransfer_some_id hfu
            have ht2id : t2.id = id2 := by
              rw [ht2]
              exact hu
            rw [findTransfer_replaceTransfer_other ht2id he]
            exact hft

lemma runOps_preserves_nonpending {id : Nat} {t : Transfer}
    (hnp : t.status ≠ .PENDING) (ops : List Op) :
    ∀ s, findTransfer s.transfers id = some t →
      findTransfer (runOps s ops).transfers id = some t := by
  induction ops with
  | nil => exact fun s hft => hft
  | cons op rest ih =>
      exact fun s hft => ih (applyOp s op) (applyOp_preserves_nonpending hft hnp op)

/-- C5: once a transfer row is in a terminal status (`COMPLETED`,
`CANCELLED` or `FAILED`) it never changes again: any cancellation attempt
returns a 400 `InvalidState` and leaves the state untouched, and the row —
its status and timestamps included, in particular a `COMPLETED` row with
its null `cancelledAt` — survives any further sequence of operations
unchanged. -/
theorem terminal_status_is_immutable
    (s : LedgerState) (id : Nat) (t : Transfer) (now : Nat) (ops : List Op)
    (hft : findTransfer s.transfers id = some t)
    (hterm : t.status.isTerminal = true) :
    cancelTransfer s now id = .error .InvalidState ∧
    ServiceError.InvalidState.httpStatus = 400 ∧
    applyOp s (Op.cancel now id) = s ∧
    findTransfer (runOps s ops).transfers id = some t := by
  have hnp : t.status ≠ .PENDING := by
    intro hp
    rw [hp] at hterm
    simp [TransferStatus.isTerminal] at hterm
  have hcancel : cancelTransfer s now id = .error .InvalidState := by
    unfold cancelTransfer
    rw [hft]
    simp [hnp]
  exact ⟨hcancel, rfl, by simp only [applyOp, hcancel],
    runOps_preserves_nonpending hnp ops s hft⟩

/-- The sample ledger after one completed transfer alice → bob of 300.00. -/
def completedSample : LedgerState :=
  runOps sampleState [Op.submit 0 "alice" "bob" 30000, Op.complete 1 0]

/-- The completed transfer row stored in `completedSample`. -/
def completedRow : Transfer :=
  { id := 0, fromUserId := "alice", toUserId := "bob", amount := 30000
    status := .COMPLETED, createdAt := 0, completedAt := some 1, cancelledAt := none }

/-- Witness for C5: the completed row rejects cancellation and survives a
further cancel attempt, a new submission and its completion, unchanged. -/
theorem terminal_status_is_immutable_witness :
    cancelTransfer completedSample 5 0 = .error .InvalidState ∧
    ServiceError.InvalidState.httpStatus = 400 ∧
    applyOp completedSample (Op.cancel 5 0) = completedSample ∧
    findTransfer (runOps completedSample
      [Op.cancel 5 0, Op.submit 6 "bob" "carol" 1000, Op.complete 7 1]).transfers 0
      = some completedRow :=
  terminal_status_is_immutable completedSample 0 completedRow 5
    [Op.cancel 5 0, Op.submit 6 "bob" "carol" 1000, Op.complete 7 1]
    (by decide) (by decide)

lemma findTransfer_replaceTransfer_self {ts : List Transfer} {id : Nat}
    {t nt : Transfer} (h : findTransfer ts id = some t) (hnt : nt.id = id) :
    findTransfer (replaceTransfer ts id nt) id = some nt := by
  induction ts with
  | nil => simp [findTransfer] at h
  | cons hd tl ih =>
      by_cases hh : (hd.id == id) = true
      · rw [replaceTransfer, if_pos hh]
        rw [findTransfer, List.find?_cons_of_pos _ (by simp [hnt])]
      · rw [findTransfer, List.find?_cons_eq_some] at h
        rcases h with ⟨hp, _⟩ | ⟨_, h2⟩
        · exact absurd hp hh
        · rw [replaceTransfer, if_neg hh, findTransfer,
            List.find?_cons_of_neg _ (by simpa using hh)]
          exact ih h2

/-- C6: a `PENDING` transfer still inside the 10-minute window is cancelled
— status `CANCELLED`, `cancelledAt` set to the cancel time — with balances
and `BalanceChange` rows untouched; a `PENDING` transfer created 11 minutes
(660 s) ago is rejected with a 400 `WindowExpired` and the state, the
still-`PENDING` row included, is unchanged. -/
theorem cancellation_window_behavior
    (s : LedgerState) (id : Nat) (t : Transfer) (now1 now2 : Nat)
    (hft : findTransfer s.transfers id = some t)
    (hpen : t.status = .PENDING)
    (hin : now1 - t.createdAt ≤ cancellationWindow)
    (hexp : now2 - t.createdAt = 660) :
    (∃ s2, cancelTransfer s now1 id =
        .ok ({ t with status := .CANCELLED, cancelledAt := some now1 }, s2) ∧
        s2.balances = s.balances ∧
        s2.balanceChanges = s.balanceChanges ∧
        findTransfer s2.transfers id =
          some { t with status := .CANCELLED, cancelledAt := some now1 }) ∧
    cancelTransfer s now2 id = .error .WindowExpired ∧
    ServiceError.WindowExpired.httpStatus = 400 ∧
    applyOp s (Op.cancel now2 id) = s := by
  have hwid : cancellationWindow = 600 := rfl
  constructor
  · have hnotover : ¬ now1 - t.createdAt > cancellationWindow := by omega
    have h1 : cancelTransfer s now1 id
        = transition s id [.PENDING]
            (fun u => { u with status := .CANCELLED, cancelledAt := some now1 }) := by
      unfold cancelTransfer
      rw [hft]
      simp [hpen, hnotover]
    have h2 : transition s id [.PENDING]
        (fun u => { u with status := .CANCELLED, cancelledAt := some now1 })
        = .ok ({ t with status := .CANCELLED, cancelledAt := some now1 },
            { s with transfers := replaceTransfer s.transfers id ({ t with status := .CANCELLED, cancelledAt := some now1 }) }) := by
      unfold transition
      rw [hft]
      simp [hpen]
    refine ⟨_, h1.trans h2, rfl, rfl, ?_⟩
    have hid : t.id = id := findTransfer_some_id hft
    show findTransfer (replaceTransfer s.transfers id _) id = _
    exact findTransfer_replaceTransfer_self hft hid
  · have hover : now2 - t.createdAt > cancellationWindow := by omega
    have hcan : cancelTransfer s now2 id = .error .WindowExpired := by
      unfold cancelTransfer
      rw [hft]
      simp [hpen, hover]
    exact ⟨hcan, rfl, by simp only [applyOp, hcan]⟩

/-- The sample ledger with one still-`PENDING` transfer alice → bob. -/
def pendingSample : LedgerState :=
  runOps sampleState [Op.submit 0 "alice" "bob" 30000]

/-- The pending transfer row stored in `pendingSample`. -/
def pendingRow : Transfer :=
  { id := 0, fromUserId := "alice", toUserId := "bob", amount := 30000
    status := .PENDING, createdAt := 0, completedAt := none, cancelledAt := none }

/-- Witness for C6: the pending sample transfer cancels fine 5 minutes
after creation and is rejected 11 minutes after creation. -/
theorem cancellation_window_behavior_witness :
    (∃ s2, cancelTransfer pendingSample 300 0 =
        .ok ({ pendingRow with status := .CANCELLED, cancelledAt := some 300 }, s2) ∧
        s2.balances = pendingSample.balances ∧
        s2.balanceChanges = pendingSample.balanceChanges ∧
        findTransfer s2.transfers 0 =
          some { pendingRow with status := .CANCELLED, cancelledAt := some 300 }) ∧
    cancelTransfer pendingSample 660 0 = .error .WindowExpired ∧
    ServiceError.WindowExpired.httpStatus = 400 ∧
    applyOp pendingSample (Op.cancel 660 0) = pendingSample :=
  cancellation_window_behavior pendingSample 0 pendingRow 300 660
    (by decide) (by decide) (by decide) (by decide)

instance : IsTotal Transfer recencyGE :=
  ⟨fun a b => by unfold recencyGE; omega⟩

instance : IsTrans Transfer recencyGE :=
  ⟨fun a b c hab hbc => by unfold recencyGE at hab hbc ⊢; omega⟩

/-- Any page cut out of the insertion-sorted history is sorted by
`createdAt` descending. -/
lemma sorted_page (l : List Transfer) (n k : Nat) :
    List.Sorted (fun a b => b.createdAt ≤ a.createdAt)
      (((l.insertionSort recencyGE).drop n).take k) := by
  have hs : List.Sorted recencyGE (l.insertionSort recencyGE) :=
    List.sorted_insertionSort recencyGE l
  have hsub : (((l.insertionSort recencyGE).drop n).take k).Sublist
      (l.insertionSort recencyGE) :=
    (List.take_sublist _ _).trans (List.drop_sublist _ _)
  refine List.Pairwise.imp ?_ (List.Pairwise.sublist hsub hs)
  intro a b hab
  unfold recencyGE at hab
  omega

/-- A size inside `[1, 100]` is accepted and the returned page is exactly
the size-`size` window at `page` of the recency-sorted selection. -/
lemma listByUser_ok_eq (s : LedgerState) (uid : String) (page size : Nat)
    (h1 : 1 ≤ size) (h100 : size ≤ 100) :
    listByUser s uid page size = .ok
      { transfers := (((s.transfers.filter (fun t => t.fromUserId == uid || t.toUserId == uid)).insertionSort recencyGE).drop (page * size)).take size
        currentPage := page
        pageSize := size
        totalElements := (s.transfers.filter (fun t => t.fromUserId == uid || t.toUserId == uid)).length
        totalPages := ((s.transfers.filter (fun t => t.fromUserId == uid || t.toUserId == uid)).length + size - 1) / size
        hasNext := decide (page < ((s.transfers.filter (fun t => t.fromUserId == uid || t.toUserId == uid)).length + size - 1) / size - 1)
        hasPrevious := decide (0 < page) } := by
  unfold listByUser
  rw [if_neg (by simp; omega)]

/-- The observable summary of a history response: item count,
`totalElements`, `totalPages`, `hasNext`, `hasPrevious` (`none` when the
request was rejected). -/
def pageInfo (e : Except ServiceError HistoryPage) :
    Option (Nat × Nat × Nat × Bool × Bool) :=
  match e with
  | .ok r => some (r.transfers.length, r.totalElements, r.totalPages, r.hasNext, r.hasPrevious)
  | .error _ => none

/-- A ledger holding 25 completed transfers that involve alice, with
strictly increasing creation times. -/
def manyTransfersState : LedgerState :=
  { balances :=
      [ { userId := "alice", balance := 5000000, version := 50 }
      , { userId := "bob", balance := 500000, version := 25 } ]
    transfers := (List.range 25).map (fun i =>
      { id := i
        fromUserId := if i % 2 = 0 then "alice" else "bob"
        toUserId := if i % 2 = 0 then "bob" else "alice"
        amount := 10000, status := .COMPLETED, createdAt := 100 + i
        completedAt := some (101 + i), cancelledAt := none })
    balanceChanges := []
    nextId := 25 }

/-- C7: an in-range history query returns at most `size` transfers, sorted
by `createdAt` descending, with `totalPages = ⌈totalElements / size⌉` (0
when empty), `hasNext ↔ page < totalPages - 1`, `hasPrevious ↔ page > 0`;
the 25-transfer user paged with size 10 sees pages of 10, 10 and 5 items
with `totalElements = 25`, `totalPages = 3`, and a user with no transfers
gets an accepted (200, never 404) empty page with all-zero metadata. -/
theorem pagination_metadata_correct
    (s : LedgerState) (uid : String) (page size : Nat)
    (h1 : 1 ≤ size) (h100 : size ≤ 100) :
    (∃ r, listByUser s uid page size = .ok r ∧
      r.transfers.length ≤ size ∧
      List.Sorted (fun a b => b.createdAt ≤ a.createdAt) r.transfers ∧
      r.currentPage = page ∧
      r.pageSize = size ∧
      r.totalPages = r.totalElements ⌈/⌉ size ∧
      (r.totalElements = 0 → r.totalPages = 0) ∧
      (r.hasNext = true ↔ page < r.totalPages - 1) ∧
      (r.hasPrevious = true ↔ 0 < page)) ∧
    pageInfo (listByUser manyTransfersState "alice" 0 10) = some (10, 25, 3, true, false) ∧
    pageInfo (listByUser manyTransfersState "alice" 1 10) = some (10, 25, 3, true, true) ∧
    pageInfo (listByUser manyTransfersState "alice" 2 10) = some (5, 25, 3, false, true) ∧
    pageInfo (listByUser sampleState "alice" 0 20) = some (0, 0, 0, false, false) := by
  refine ⟨⟨_, listByUser_ok_eq s uid page size h1 h100, ?_, ?_, rfl, rfl, ?_, ?_, ?_, ?_⟩,
    by decide, by decide, by decide, by decide⟩
  · show (List.take size _).length ≤ size
    rw [List.length_take]
    exact min_le_left _ _
  · exact sorted_page _ _ _
  · exact (Nat.ceilDiv_eq_add_pred_div _ _).symm
  · intro h0
    show (_ + size - 1) / size = 0
    have h0x : (s.transfers.filter
        (fun t => t.fromUserId == uid || t.toUserId == uid)).length = 0 := h0
    rw [h0x]
    exact Nat.div_eq_of_lt (by omega)
  · exact decide_eq_true_iff
  · exact decide_eq_true_iff

/-- Witness for C7: the metadata contract instantiated on the 25-transfer
ledger itself, page 1 of size 10. -/
theorem pagination_metadata_correct_witness :
    (∃ r, listByUser manyTransfersState "alice" 1 10 = .ok r ∧
      r.transfers.length ≤ 10 ∧
      List.Sorted (fun a b => b.createdAt ≤ a.createdAt) r.transfers ∧
      r.currentPage = 1 ∧
      r.pageSize = 10 ∧
      r.totalPages = r.totalElements ⌈/⌉ 10 ∧
      (r.totalElements = 0 → r.totalPages = 0) ∧
      (r.hasNext = true ↔ 1 < r.totalPages - 1) ∧
      (r.hasPrevious = true ↔ 0 < 1)) ∧
    pageInfo (listByUser manyTransfersState "alice" 0 10) = some (10, 25, 3, true, false) ∧
    pageInfo (listByUser manyTransfersState "alice" 1 10) = some (10, 25, 3, true, true) ∧
    pageInfo (listByUser manyTransfersState "alice" 2 10) = some (5, 25, 3, false, true) ∧
    pageInfo (listByUser sampleState "alice" 0 20) = some (0, 0, 0, false, false) :=
  pagination_metadata_correct manyTransfersState "alice" 1 10 (by decide) (by decide)

/-- C8: a history query with `size` outside `[1, 100]` — 0 and 101
included — is rejected with a 400 `InvalidArgument`, while `size = 1` and
`size = 100` are accepted and return at most that many transfers. -/
theorem history_size_bounds
    (s : LedgerState) (uid : String) (page : Nat) (sizeBad sizeOk : Nat)
    (hbad : sizeBad < 1 ∨ sizeBad > 100) (hok : sizeOk = 1 ∨ sizeOk = 100) :
    (listByUser s uid page sizeBad = .error .InvalidArgument ∧
     ServiceError.InvalidArgument.httpStatus = 400) ∧
    (∃ r, listByUser s uid page sizeOk = .ok r ∧
      r.pageSize = sizeOk ∧ r.transfers.length ≤ sizeOk) := by
  constructor
  · refine ⟨?_, rfl⟩
    unfold listByUser
    rw [if_pos (by simp; omega)]
  · have hsz1 : 1 ≤ sizeOk := by omega
    have hsz2 : sizeOk ≤ 100 := by omega
    refine ⟨_, listByUser_ok_eq s uid page sizeOk hsz1 hsz2, rfl, ?_⟩
    show (List.take sizeOk _).length ≤ sizeOk
    rw [List.length_take]
    exact min_le_left _ _

/-- Witness for C8: size 0 and size 101 are rejected, sizes 1 and 100
accepted, on the 25-transfer ledger. -/
theorem history_size_bounds_witness :
    ((listByUser manyTransfersState "alice" 0 0 = .error .InvalidArgument ∧
      ServiceError.InvalidArgument.httpStatus = 400) ∧
     (∃ r, listByUser manyTransfersState "alice" 0 1 = .ok r ∧
       r.pageSize = 1 ∧ r.transfers.length ≤ 1)) ∧
    ((listByUser manyTransfersState "alice" 0 101 = .error .InvalidArgument ∧
      ServiceError.InvalidArgument.httpStatus = 400) ∧
     (∃ r, listByUser manyTransfersState "alice" 0 100 = .ok r ∧
       r.pageSize = 100 ∧ r.transfers.length ≤ 100)) :=
  ⟨history_size_bounds manyTransfersState "alice" 0 0 1 (Or.inl (by decide)) (Or.inl rfl),
   history_size_bounds manyTransfersState "alice" 0 101 100 (Or.inr (by decide)) (Or.inr rfl)⟩

/-- The asynchronous resolution of a `PENDING` transfer between distinct
existing users whose sender can cover the amount reaches `COMPLETED`. -/
lemma completeTransfer_succeeds {s : LedgerState} {later id : Nat} {t : Transfer}
    {fb tb : UserBalance}
    (hft : findTransfer s.transfers id = some t)
    (hpen : t.status = .PENDING)
    (hne : t.fromUserId ≠ t.toUserId)
    (hfb : findBalance s.balances t.fromUserId = some fb)
    (htb : findBalance s.balances t.toUserId = some tb)
    (hcov : t.amount ≤ fb.balance)
    (htbn : 0 ≤ tb.balance + t.amount) :
    ∃ t2 s2, completeTransfer s later id = .ok (t2, s2) ∧
      t2.status = .COMPLETED ∧ t2.completedAt = some later := by
  have hfbu : fb.userId = t.fromUserId := findBalance_some_userId hfb
  have hp : ¬ t.status ≠ TransferStatus.PENDING := by simp [hpen]
  have h1 : ¬ fb.balance + -t.amount < 0 := by omega
  have h2 : ¬ tb.balance + t.amount < 0 := by omega
  have hnb1 : ({ userId := fb.userId, balance := fb.balance + -t.amount, version := fb.version + 1 } : UserBalance).userId = t.fromUserId := hfbu
  have htb1 : findBalance (replaceBalance s.balances t.fromUserId
      { userId := fb.userId, balance := fb.balance + -t.amount, version := fb.version + 1 })
      t.toUserId = some tb := by
    rw [findBalance_replaceBalance_other hnb1 (Ne.symm hne)]
    exact htb
  unfold completeTransfer compareAndApply transition
  rw [hft]
  simp [hp, hfb, htb1, h1, h2, hft, hpen]

/-- C10: a valid submission — distinct existing users, positive amount
covered by the sender's balance — is answered with a freshly created
`PENDING` transfer (never an immediately `COMPLETED` or `FAILED` one); the
row is durably stored as `PENDING`, and the engine's separate asynchronous
resolution step afterwards drives it to its terminal `COMPLETED` state. -/
theorem submission_starts_pending
    (s : LedgerState) (now later : Nat) (f t : String) (a : Int)
    (fb tb : UserBalance)
    (hne : f ≠ t) (hpos : 0 < a)
    (hfb : findBalance s.balances f = some fb)
    (htb : findBalance s.balances t = some tb)
    (hcov : a ≤ fb.balance)
    (htb0 : 0 ≤ tb.balance)
    (hfresh : findTransfer s.transfers s.nextId = none) :
    ∃ tr s2, submitTransfer s now f t a = .ok (tr, s2) ∧
      tr.status = .PENDING ∧ tr.status ≠ .COMPLETED ∧ tr.status ≠ .FAILED ∧
      findTransfer s2.transfers tr.id = some tr ∧
      ∃ tr2 s3, completeTransfer s2 later tr.id = .ok (tr2, s3) ∧
        tr2.status = .COMPLETED ∧ tr2.completedAt = some later := by
  have hnl : ¬ fb.balance < a := not_lt.mpr hcov
  have hsub : submitTransfer s now f t a = .ok
      ({ id := s.nextId, fromUserId := f, toUserId := t, amount := a, status := .PENDING, createdAt := now, completedAt := none, cancelledAt := none },
       { s with transfers := s.transfers ++ [{ id := s.nextId, fromUserId := f, toUserId := t, amount := a, status := .PENDING, createdAt := now, completedAt := none, cancelledAt := none }], nextId := s.nextId + 1 }) := by
    unfold submitTransfer
    rw [if_neg (by omega), if_neg (by simp [hne]), hfb, htb]
    simp [hnl]
  have hfind : findTransfer
      (s.transfers ++ [({ id := s.nextId, fromUserId := f, toUserId := t, amount := a, status := .PENDING, createdAt := now, completedAt := none, cancelledAt := none } : Transfer)])
      s.nextId =
      some { id := s.nextId, fromUserId := f, toUserId := t, amount := a, status := .PENDING, createdAt := now, completedAt := none, cancelledAt := none } := by
    rw [findTransfer_append, hfresh]
    simp [findTransfer]
  refine ⟨_, _, hsub, rfl, by simp, by simp, hfind, ?_⟩
  exact completeTransfer_succeeds hfind rfl hne hfb htb hcov
    (by show (0:Int) ≤ tb.balance + a; omega)

/-- Witness for C10: alice → bob for 300.00 on the sample ledger starts
`PENDING` and completes asynchronously. -/
theorem submission_starts_pending_witness :
    ∃ tr s2, submitTransfer sampleState 0 "alice" "bob" 30000 = .ok (tr, s2) ∧
      tr.status = .PENDING ∧ tr.status ≠ .COMPLETED ∧ tr.status ≠ .FAILED ∧
      findTransfer s2.transfers tr.id = some tr ∧
      ∃ tr2 s3, completeTransfer s2 1 tr.id = .ok (tr2, s3) ∧
        tr2.status = .COMPLETED ∧ tr2.completedAt = some 1 :=
  submission_starts_pending sampleState 0 1 "alice" "bob" 30000
    { userId := "alice", balance := 100000, version := 0 }
    { userId := "bob", balance := 50000, version := 0 }
    (by decide) (by decide) (by decide) (by decide) (by decide) (by decide) (by decide)

/-- Modelled from the spec: the concurrency scenario of the absent service
(section 8): user V with 1000.00, users W and X with 500.00 each. -/
def concInit : LedgerState :=
  { balances :=
      [ { userId := "V", balance := 100000, version := 0 }
      , { userId := "W", balance := 50000, version := 0 }
      , { userId := "X", balance := 50000, version := 0 } ]
    transfers := []
    balanceChanges := []
    nextId := 0 }

/-- The four atomic steps of the two concurrent requests V → W 300.00 and
V → X 400.00.  Per the spec, the submission validation and the
debit-credit pair are each a single serialization point (compare-and-apply
plus the required cross-row atomic transaction), so every concurrent
execution is an interleaving of these four atomic steps. -/
inductive ConcStep where
  | submitVW
  | completeVW
  | submitVX
  | completeVX
deriving DecidableEq, Repr

/-- Run one atomic step of the concurrency scenario; each completion step
resolves its own request's transfer, found by its endpoints. -/
def applyConcStep (s : LedgerState) : ConcStep → LedgerState
  | .submitVW =>
      match submitTransfer s 0 "V" "W" 30000 with
      | .ok (_, s2) => s2
      | .error _ => s
  | .completeVW =>
      match s.transfers.find? (fun t => t.fromUserId == "V" && t.toUserId == "W") with
      | some t =>
          match completeTransfer s 1 t.id with
          | .ok (_, s2) => s2
          | .error _ => s
      | none => s
  | .submitVX =>
      match submitTransfer s 0 "V" "X" 40000 with
      | .ok (_, s2) => s2
      | .error _ => s
  | .completeVX =>
      match s.transfers.find? (fun t => t.fromUserId == "V" && t.toUserId == "X") with
      | some t =>
          match completeTransfer s 1 t.id with
          | .ok (_, s2) => s2
          | .error _ => s
      | none => s

/-- Run an interleaving of the concurrency scenario from its initial
state. -/
def runConc (l : List ConcStep) : LedgerState :=
  l.foldl applyConcStep concInit

/-- The stored balance of a user, in cents. -/
def balanceOf (s : LedgerState) (uid : String) : Option Int :=
  (findBalance s.balances uid).map (fun b => b.balance)

/-- The number of `COMPLETED` transfer rows. -/
def completedCount (s : LedgerState) : Nat :=
  (s.transfers.filter (fun t => t.status == TransferStatus.COMPLETED)).length

/-- The serializable outcomes the test contract allows for the concurrency
scenario: both transfers complete and V holds 300.00 with W and X each
credited once, or exactly one completes and V holds 700.00 or 600.00
accordingly. -/
def concOutcomeOK (l : List ConcStep) : Prop :=
  (completedCount (runConc l) = 2 ∧
   balanceOf (runConc l) "V" = some 30000 ∧
   balanceOf (runConc l) "W" = some 80000 ∧
   balanceOf (runConc l) "X" = some 90000) ∨
  (completedCount (runConc l) = 1 ∧
   (balanceOf (runConc l) "V" = some 70000 ∨ balanceOf (runConc l) "V" = some 60000))

instance (l : List ConcStep) : Decidable (concOutcomeOK l) := by
  unfold concOutcomeOK
  infer_instance

/-- C4: for every interleaving of the two concurrently submitted transfers
V → W 300.00 and V → X 400.00 — every duplicate-free sequence of the four
atomic steps in which each submission precedes its own resolution — the
final state matches a sequential ordering of the two requests: both
complete with V at 300.00 and each recipient credited once, or exactly one
completes leaving V at 700.00 or 600.00; no interleaving applies both
debits against the same stale balance. -/
theorem concurrent_transfers_serialize :
    ∀ l : List ConcStep, l.length = 4 → l.Nodup →
      l.indexOf ConcStep.submitVW < l.indexOf ConcStep.completeVW →
      l.indexOf ConcStep.submitVX < l.indexOf ConcStep.completeVX →
      concOutcomeOK l := by
  intro l hlen hnd h1 h2
  cases l with
  | nil => simp at hlen
  | cons a l1 =>
      cases l1 with
      | nil => simp at hlen
      | cons b l2 =>
          cases l2 with
          | nil => simp at hlen
          | cons c l3 =>
              cases l3 with
              | nil => simp at hlen
              | cons d l4 =>
                  cases l4 with
                  | cons e l5 => simp at hlen
                  | nil =>
                      revert hnd h1 h2
                      cases a <;> cases b <;> cases c <;> cases d <;> decide

/-- Witness for C4: the fully sequential interleaving is among the
enumerated ones and satisfies the outcome contract. -/
theorem concurrent_transfers_serialize_witness :
    concOutcomeOK [ConcStep.submitVW, ConcStep.completeVW,
                   ConcStep.submitVX, ConcStep.completeVX] :=
  concurrent_transfers_serialize
    [ConcStep.submitVW, ConcStep.completeVW, ConcStep.submitVX, ConcStep.completeVX]
    (by decide) (by decide) (by decide) (by decide)

end Ledger
